import Mathlib

/-!
Verification development for the metadata-to-schema compiler (typegoose).

The repository snapshot contains the error classes (src/internal/errors.ts),
the behavioural documentation of the prop decorator options, and the test
suite; the compiler body itself (internal/utils.ts, typegoose.ts, schema
processing) is not part of the snapshot.  Components that are missing from
the snapshot are modelled from the specification; each such definition is
marked with a doc comment starting with the words Modelled from the spec.
-/

set_option autoImplicit false

namespace Typegoose

/-! ### String containment -/

/-- Decides whether the character list p occurs contiguously inside l. -/
def listHasSub (p : List Char) : List Char → Bool
  | [] => p.isEmpty
  | c :: t => p.isPrefixOf (c :: t) || listHasSub p t

/-- The string sub occurs contiguously inside msg. -/
def containsStr (msg sub : String) : Bool :=
  listHasSub sub.data msg.data

/-! ### Type hints and resolved storage types -/

/-- Primitive storage kinds of the driver layer. -/
inductive PrimKind
  | pstring
  | pnumber
  | pboolean
  | pbuffer
deriving DecidableEq

/-- Modelled from the spec: the inferred-or-declared type hint of a property
(reflection metadata), including array and map wrappers and class references. -/
inductive TypeHint
  | hString
  | hNumber
  | hBoolean
  | hBuffer
  | hMixed
  | hClass (name : String)
  | hArrayOf (t : TypeHint)
  | hMapOf (t : TypeHint)
deriving DecidableEq

/-- Modelled from the spec: the canonical storage-type descriptor, a tagged
union over primitives, arrays, maps, nested classes, references and mixed. -/
inductive ResolvedType
  | primitive (k : PrimKind)
  | arrayOf (t : ResolvedType)
  | mapOf (t : ResolvedType)
  | nested (cls : String)
  | reference (target : String)
  | mixed
deriving DecidableEq

/-- Modelled from the spec: an enum definition is a list of members, each
carrying a name and either an associated string value or a numeric value. -/
structure EnumDef where
  members : List (String × (String ⊕ Int))
deriving DecidableEq

/-- Modelled from the spec: the recognized property option keys
(section 6 of the spec); transforms for get and set are opaque and are
represented by identifiers. -/
structure PropOptions where
  required : Option Bool := none
  index : Option Bool := none
  unique : Option Bool := none
  ref : Option String := none
  refPath : Option String := none
  localField : Option String := none
  foreignField : Option String := none
  get : Option Nat := none
  set : Option Nat := none
  type : Option TypeHint := none
  enum : Option EnumDef := none
  maxlength : Option Nat := none
  minlength : Option Nat := none
  max : Option Int := none
  min : Option Int := none
  aliasName : Option String := none
deriving DecidableEq

deriving instance DecidableEq for Except

/-! ### Errors (messages as in src/internal/errors.ts where present) -/

/-- Modelled from the spec: the needed virtual populate option names
(joined into the message of NotAllVPOPElementsError in errors.ts). -/
def allVirtualoptions : List String := ["ref", "localField", "foreignField"]

/-- Compile-time configuration failures of the property compiler. -/
inductive CompileError
  | getSetPair (name key : String)
  | notAllVPOP (name key : String)
  | noMetadata (key : String)
  | enumNotString (name key : String)
  | notStringType (key : String)
  | notNumberType (key : String)
deriving DecidableEq

/-- An apostrophe character, used inside error message texts. -/
def apos : String := String.singleton (Char.ofNat 39)

/-- Error message texts; notAllVPOP, noMetadata, notStringType and
notNumberType are transcribed from src/internal/errors.ts, the remaining
two are modelled from the spec (a failure naming both keys of a required
pair, and the strict-enum rejection). -/
def CompileError.message : CompileError → String
  | .getSetPair name key =>
      "\"" ++ name ++ "." ++ key ++ "\" does not have both of the needed options! Needed are: get, set"
  | .notAllVPOP name key =>
      "\"" ++ name ++ "." ++ key ++ "\" has not all needed Virtual Populate Options! Needed are: "
        ++ String.intercalate ", " allVirtualoptions
  | .noMetadata key =>
      "There is no metadata for the \"" ++ key ++ "\" property.\n"
        ++ "Check if emitDecoratorMetadata is enabled in tsconfig.json "
        ++ "or check if you" ++ apos ++ "ve declared a sub document" ++ apos ++ "s class after usage."
  | .enumNotString name key =>
      "The enum option of \"" ++ name ++ "." ++ key
        ++ "\" does not have strings associated with all of its members! (strict enum mode)"
  | .notStringType key => "Type of " ++ key ++ " property is not a string."
  | .notNumberType key => "Type of " ++ key ++ " property is not a number."

/-! ### Virtual populate and get/set option checks -/

/-- Modelled from the spec: the three virtual populate slots of an option
bag, each with its name and whether the bag fills it (ref and refPath share
one slot). -/
def vpopSlots (o : PropOptions) : List (String × Bool) :=
  [("ref", o.ref.isSome || o.refPath.isSome),
   ("localField", o.localField.isSome),
   ("foreignField", o.foreignField.isSome)]

/-- Some virtual populate slot is filled. -/
def vpopAny (o : PropOptions) : Bool := (vpopSlots o).any (fun s => s.2)

/-- Every virtual populate slot is filled. -/
def vpopAll (o : PropOptions) : Bool := (vpopSlots o).all (fun s => s.2)

/-- The names of the virtual populate slots the option bag leaves empty. -/
def missingVirtual (o : PropOptions) : List String :=
  ((vpopSlots o).filter (fun s => !s.2)).map (fun s => s.1)

/-- Modelled from the spec: exactly one of the paired keys get and set is
present. -/
def getSetViolated (o : PropOptions) : Bool :=
  o.get.isSome != o.set.isSome

/-! ### Type resolution -/

/-- The reference target of an option bag: ref wins over refPath. -/
def refTarget (o : PropOptions) : Option String :=
  match o.ref with
  | some r => some r
  | none => o.refPath

/-- Modelled from the spec: resolve a type hint to a storage type; a class
hint resolves as a reference when a ref or refPath option is present and as
a nested class otherwise; array and map wrappers recurse one level. -/
def resolveCore (refOpt : Option String) : TypeHint → ResolvedType
  | .hString => .primitive .pstring
  | .hNumber => .primitive .pnumber
  | .hBoolean => .primitive .pboolean
  | .hBuffer => .primitive .pbuffer
  | .hMixed => .mixed
  | .hClass c =>
      match refOpt with
      | some r => .reference r
      | none => .nested c
  | .hArrayOf t => .arrayOf (resolveCore refOpt t)
  | .hMapOf t => .mapOf (resolveCore refOpt t)

/-- Rewraps a resolved base type with the array or map wrapper declared by
the hint, used when an explicit type override replaces the element type. -/
def wrapLike : Option TypeHint → ResolvedType → ResolvedType
  | some (.hArrayOf _), b => .arrayOf b
  | some (.hMapOf _), b => .mapOf b
  | _, b => b

/-- Modelled from the spec: the Type Resolver; an explicit type override
wins unconditionally (validated against the declared array or map wrapper),
otherwise the inferred hint is used, and an absent hint raises
NoMetadataError. -/
def resolveType (key : String) (hint : Option TypeHint) (o : PropOptions) :
    Except CompileError ResolvedType :=
  match o.type with
  | some t => .ok (wrapLike hint (resolveCore (refTarget o) t))
  | none =>
    match hint with
    | none => .error (.noMetadata key)
    | some hn => .ok (resolveCore (refTarget o) hn)

/-! ### Enum handling -/

/-- A member's associated string value, when it has one. -/
def memberStr : String ⊕ Int → Option String
  | .inl s => some s
  | .inr _ => none

/-- Modelled from the spec: under strict enum mode (useNewEnum) an enum
whose members are not all string backed is rejected, and a string backed
enum is emitted as the list of its string values; without strict enum mode
the member names are emitted (the old behaviour). -/
def checkEnum (useNewEnum : Bool) (name key : String) :
    Option EnumDef → Except CompileError (Option (List String))
  | none => .ok none
  | some e =>
    if useNewEnum then
      if e.members.all (fun m => (memberStr m.2).isSome) then
        .ok (some (e.members.filterMap (fun m => memberStr m.2)))
      else
        .error (.enumNotString name key)
    else
      .ok (some (e.members.map (fun m => m.1)))

/-! ### Type-specific option validation and index normalization -/

/-- The resolved type is the string primitive. -/
def isStringType : ResolvedType → Bool
  | .primitive .pstring => true
  | _ => false

/-- The resolved type is the number primitive. -/
def isNumberType : ResolvedType → Bool
  | .primitive .pnumber => true
  | _ => false

/-- Modelled from the spec: a string-only option is applied to a type that
did not resolve to a string. -/
def stringOnlyViolated (o : PropOptions) (rt : ResolvedType) : Bool :=
  (o.maxlength.isSome || o.minlength.isSome) && !isStringType rt

/-- Modelled from the spec: a number-only option is applied to a type that
did not resolve to a number. -/
def numberOnlyViolated (o : PropOptions) (rt : ResolvedType) : Bool :=
  (o.max.isSome || o.min.isSome) && !isNumberType rt

/-- Modelled from the spec: the compiled index flag; unique true implies
index true whenever index was not explicitly set to false. -/
def normIndex (o : PropOptions) : Option Bool :=
  if o.unique == some true && o.index != some false then some true else o.index

/-! ### The property compiler -/

/-- Virtual populate information of a compiled field. -/
structure VPopInfo where
  refSlot : Option String
  localField : String
  foreignField : String
deriving DecidableEq

/-- One compiled property of a schema plan. -/
structure FieldPlan where
  name : String
  type : ResolvedType
  required : Bool
  index : Option Bool
  unique : Option Bool
  enumValues : Option (List String)
  hasGetSet : Bool
  vpop : Option VPopInfo
deriving DecidableEq

/-- Modelled from the spec: the Property Compiler; checks the get/set pair,
then virtual populate completeness, resolves the storage type, checks the
enum option, checks string-only and number-only options, and assembles the
field plan with the normalized index flag. -/
def compileProp (useNewEnum : Bool) (name key : String) (hint : Option TypeHint)
    (o : PropOptions) : Except CompileError FieldPlan :=
  if getSetViolated o then .error (.getSetPair name key)
  else if vpopAny o && !vpopAll o then .error (.notAllVPOP name key)
  else
    match resolveType key hint o with
    | .error e => .error e
    | .ok rt =>
      match checkEnum useNewEnum name key o.enum with
      | .error e => .error e
      | .ok ev =>
        if stringOnlyViolated o rt then .error (.notStringType key)
        else if numberOnlyViolated o rt then .error (.notNumberType key)
        else .ok
          { name := key
            type := rt
            required := o.required.getD false
            index := normIndex o
            unique := o.unique
            enumValues := ev
            hasGetSet := o.get.isSome
            vpop :=
              if vpopAll o then
                some { refSlot := refTarget o
                       localField := o.localField.getD ""
                       foreignField := o.foreignField.getD "" }
              else none }

/-- The compilation result is the virtual-populate completeness error. -/
def isVPOPErr : Except CompileError FieldPlan → Bool
  | .error (.notAllVPOP _ _) => true
  | _ => false

/-- The compilation result is the get/set pairing error. -/
def isGetSetErr : Except CompileError FieldPlan → Bool
  | .error (.getSetPair _ _) => true
  | _ => false

/-- The compilation result is the strict-enum rejection error. -/
def isEnumErr : Except CompileError FieldPlan → Bool
  | .error (.enumNotString _ _) => true
  | _ => false

/-! ### The class compiler, the schema cache and the model registry -/

/-- Modelled from the spec: a class, carrying its identity (classes are
cached by identity, not by name), its name, and its declared properties in
declaration order, each with its inferred type hint and its option bag. -/
structure Clazz where
  id : Nat
  name : String
  props : List (String × Option TypeHint × PropOptions)
deriving DecidableEq

/-- A compiled schema plan: the class name and the compiled fields in
declaration order. -/
structure SchemaPlan where
  className : String
  fields : List FieldPlan
deriving DecidableEq

/-- A registered model: its model name and its schema plan. -/
structure MModel where
  modelName : String
  plan : SchemaPlan
deriving DecidableEq

/-- Lookup in an association list by key. -/
def lookupKey {κ : Type} {α : Type} [DecidableEq κ] (k : κ) : List (κ × α) → Option α
  | [] => none
  | (k1, v) :: rest => if k1 = k then some v else lookupKey k rest

/-- Modelled from the spec: the process-wide compiler state, the schema
plan cache keyed by class identity and the model registry keyed by model
name. -/
structure TState where
  schemaCache : List (Nat × SchemaPlan)
  models : List (String × MModel)
deriving DecidableEq

/-- Modelled from the spec: compile every declared property of a class, in
declaration order, into a schema plan. -/
def compileClass (useNewEnum : Bool) (c : Clazz) : Except CompileError SchemaPlan :=
  match (c.props.mapM (fun p => compileProp useNewEnum c.name p.1 p.2.1 p.2.2)) with
  | .error e => .error e
  | .ok fields => .ok { className := c.name, fields := fields }

/-- Modelled from the spec: buildSchema returns the cached plan when the
class was already compiled, and otherwise compiles the class and caches the
plan on success; a failed compilation is not cached. -/
def buildSchema (useNewEnum : Bool) (s : TState) (c : Clazz) :
    TState × Except CompileError SchemaPlan :=
  match lookupKey c.id s.schemaCache with
  | some plan => (s, .ok plan)
  | none =>
    match compileClass useNewEnum c with
    | .ok plan => ({ s with schemaCache := (c.id, plan) :: s.schemaCache }, .ok plan)
    | .error e => (s, .error e)

/-- Modelled from the spec: getModelForClass returns the registered model
when one exists under the class name, and otherwise builds the schema and
registers a model under the class name. -/
def getModelForClass (useNewEnum : Bool) (s : TState) (c : Clazz) :
    TState × Except CompileError MModel :=
  match lookupKey c.name s.models with
  | some m => (s, .ok m)
  | none =>
    match buildSchema useNewEnum s c with
    | (s1, .ok plan) =>
        ({ s1 with models := (c.name, { modelName := c.name, plan := plan }) :: s1.models },
         .ok { modelName := c.name, plan := plan })
    | (s1, .error e) => (s1, .error e)

/-- Modelled from the spec: getModelWithString looks the name up in the
model registry and returns the model, or none when no model is registered
under that name. -/
def getModelWithString (s : TState) (name : String) : Option MModel :=
  lookupKey name s.models

/-! ### The metadata store

Option bags attached to classes are mutable objects; to state the aliasing
properties (a deep copy shares no object with the original, so mutating one
bag never changes another) the nested objects live in an explicit heap of
numbered cells, and a bag value is either a primitive or the address of a
nested object. -/

/-- A primitive option value. -/
inductive Prim
  | pstr (s : String)
  | pbool (b : Bool)
  | pnum (n : Int)
deriving DecidableEq

/-- A flat object: an ordered list of key-primitive entries. -/
abbrev FlatObj := List (String × Prim)

/-- A bag value: a primitive, or the heap address of a nested object. -/
inductive Value
  | prim (p : Prim)
  | ref (a : Nat)
deriving DecidableEq

/-- An option bag: an ordered list of keys, each bound to a primitive or to
the address of a nested object. -/
abbrev Bag := List (String × Value)

/-- A partial option bag as written in a decorator: nested objects appear
literally. -/
inductive PVal
  | scalar (p : Prim)
  | obj (o : FlatObj)
deriving DecidableEq

/-- A partial option bag passed to a decorator or to a merge call. -/
abbrev PBag := List (String × PVal)

/-- The heap of nested option objects: allocated cells and the next fresh
address. -/
structure Heap where
  objs : List (Nat × FlatObj)
  next : Nat
deriving DecidableEq

/-- Reads the object stored at an address. -/
def Heap.read (h : Heap) (a : Nat) : Option FlatObj :=
  lookupKey a h.objs

/-- Allocates a fresh cell holding the given object and returns its
address. -/
def Heap.alloc (h : Heap) (o : FlatObj) : Heap × Nat :=
  ({ objs := (h.next, o) :: h.objs, next := h.next + 1 }, h.next)

/-- Replaces the object stored at an address; the new cell shadows the old
one, so a read at the address sees the new object and reads at every other
address are unchanged. -/
def Heap.writeObj (h : Heap) (a : Nat) (o : FlatObj) : Heap :=
  { h with objs := (a, o) :: h.objs }

/-- Binds a key to a value in an ordered association list, replacing the
first entry carrying the key and appending when the key is absent. -/
def setKey {α : Type} (l : List (String × α)) (k : String) (v : α) : List (String × α) :=
  match l with
  | [] => [(k, v)]
  | (k1, v1) :: rest => if k1 = k then (k, v) :: rest else (k1, v1) :: setKey rest k v

/-- The addresses a bag value holds. -/
def valAddrs : Value → List Nat
  | .prim _ => []
  | .ref a => [a]

/-- The addresses a bag holds. -/
def bagAddrs (b : Bag) : List Nat :=
  b.flatMap (fun kv => valAddrs kv.2)

/-- Modelled from the spec: the deep copy of a bag; primitives are copied
as values and every nested object is copied into a freshly allocated cell,
so the copy shares no cell with the original. -/
def copyBag (h : Heap) : Bag → Heap × Bag
  | [] => (h, [])
  | (k, .prim p) :: rest =>
    let hr := copyBag h rest
    (hr.1, (k, .prim p) :: hr.2)
  | (k, .ref a) :: rest =>
    let o := (h.read a).getD []
    let ha := h.alloc o
    let hr := copyBag ha.1 rest
    (hr.1, (k, .ref ha.2) :: hr.2)

/-- Key-wise merge of a partial flat object into a flat object; entries of
the partial win. -/
def mergeFlat (o : FlatObj) (p : FlatObj) : FlatObj :=
  p.foldl (fun acc kv => setKey acc kv.1 kv.2) o

/-- The address of the nested object a bag holds at a key, when it holds
one there. -/
def lookupRef (b : Bag) (k : String) : Option Nat :=
  match lookupKey k b with
  | some (Value.ref a) => some a
  | _ => none

/-- Modelled from the spec: deep-merge of a partial bag into a bag; scalar
keys of the partial win, a nested partial object merges key-wise into the
nested object the bag already holds at that key, and is placed into a
freshly allocated cell when the bag has no nested object there. -/
def mergeInto (h : Heap) (b : Bag) : PBag → Heap × Bag
  | [] => (h, b)
  | (k, .scalar p) :: rest => mergeInto h (setKey b k (.prim p)) rest
  | (k, .obj o) :: rest =>
    match lookupRef b k with
    | some a =>
      let cur := (h.read a).getD []
      mergeInto (h.writeObj a (mergeFlat cur o)) b rest
    | none =>
      let ha := h.alloc o
      mergeInto ha.1 (setKey b k (.ref ha.2)) rest

/-- Dereferences a bag value into its deep content (a dangling address
reads as the empty object). -/
def derefVal (h : Heap) : Value → Prim ⊕ FlatObj
  | .prim p => .inl p
  | .ref a => .inr ((h.read a).getD [])

/-- The deep content of a bag: every nested address replaced by the object
it denotes.  Two bags are deep-equal exactly when their readouts are
equal. -/
def readout (h : Heap) (b : Bag) : List (String × (Prim ⊕ FlatObj)) :=
  b.map (fun kv => (kv.1, derefVal h kv.2))

/-- The nested object a deep content holds at a key, when it holds one
there. -/
def lookupObj (b : List (String × (Prim ⊕ FlatObj))) (k : String) : Option FlatObj :=
  match lookupKey k b with
  | some (.inr o) => some o
  | _ => none

/-- The deep-merge on deep contents: the pure counterpart of mergeInto,
used to state what the returned merged bag contains. -/
def pureMerge (b : List (String × (Prim ⊕ FlatObj))) :
    PBag → List (String × (Prim ⊕ FlatObj))
  | [] => b
  | (k, .scalar p) :: rest => pureMerge (setKey b k (.inl p)) rest
  | (k, .obj o) :: rest =>
    match lookupObj b k with
    | some cur => pureMerge (setKey b k (.inr (mergeFlat cur o))) rest
    | none => pureMerge (setKey b k (.inr o)) rest

/-- The per-class metadata store: each class identity maps to its stored
option bag. -/
abbrev MetaStore := List (Nat × Bag)

/-- Modelled from the spec: mergeMetadata reads the bag stored for the
class (absent metadata reads as the empty bag), deep-copies it, deep-merges
the partial into the copy and returns the merged bag; the stored bag is
cloned before any mutation. -/
def mergeMetadata (h : Heap) (store : MetaStore) (clsId : Nat) (p : PBag) : Heap × Bag :=
  let current := (lookupKey clsId store).getD []
  let hc := copyBag h current
  mergeInto hc.1 hc.2 p

/-- Modelled from the spec: assignMetadata with an absent value returns
immediately without touching the store; otherwise it stores the bag
mergeMetadata produces under the class. -/
def assignMetadata (h : Heap) (store : MetaStore) (clsId : Nat) :
    Option PBag → Heap × MetaStore
  | none => (h, store)
  | some pb =>
    let hm := mergeMetadata h store clsId pb
    (hm.1, (clsId, hm.2) :: store)

/-- Modelled from the spec: mergeMetadata called with an absent partial
merges nothing, returning a clone of the stored bag. -/
def mergeMetadataOpt (h : Heap) (store : MetaStore) (clsId : Nat) :
    Option PBag → Heap × Bag
  | none => mergeMetadata h store clsId []
  | some pb => mergeMetadata h store clsId pb

/-- Modelled from the spec: mergeSchemaOptions merges the partial into the
class's model options and returns the deep content stored under the
schemaOptions key of the result. -/
def mergeSchemaOptions (h : Heap) (store : MetaStore) (clsId : Nat)
    (p : Option PBag) : Option (Prim ⊕ FlatObj) :=
  let hm := mergeMetadataOpt h store clsId p
  lookupKey "schemaOptions" (readout hm.1 hm.2)

/-- Modelled from the spec: applying the modelOptions decorator to a
derived class reads the base class's bag through the metadata chain,
deep-merges the decorator's partial into a deep copy of it, and stores the
result under the derived class only. -/
def modelOptionsDerived (h : Heap) (store : MetaStore) (baseId derivedId : Nat)
    (p : PBag) : Heap × MetaStore :=
  let hm := mergeMetadata h store baseId p
  (hm.1, (derivedId, hm.2) :: store)

/-! ### Lemmas about the heap and bag readouts -/

@[simp]
theorem bagAddrs_nil : bagAddrs [] = [] := rfl

@[simp]
theorem bagAddrs_cons (e : String × Value) (rest : Bag) :
    bagAddrs (e :: rest) = valAddrs e.2 ++ bagAddrs rest := rfl

@[simp]
theorem readout_nil (h : Heap) : readout h [] = [] := rfl

@[simp]
theorem readout_cons (h : Heap) (e : String × Value) (rest : Bag) :
    readout h (e :: rest) = (e.1, derefVal h e.2) :: readout h rest := rfl

theorem Heap.read_writeObj_self (h : Heap) (a : Nat) (o : FlatObj) :
    (h.writeObj a o).read a = some o := by
  simp [Heap.writeObj, Heap.read, lookupKey]

theorem Heap.read_writeObj_ne (h : Heap) (a a1 : Nat) (o : FlatObj) (hne : a1 ≠ a) :
    (h.writeObj a o).read a1 = h.read a1 := by
  show lookupKey a1 ((a, o) :: h.objs) = lookupKey a1 h.objs
  simp only [lookupKey]
  rw [if_neg (fun hh => hne hh.symm)]

@[simp]
theorem Heap.writeObj_next (h : Heap) (a : Nat) (o : FlatObj) :
    (h.writeObj a o).next = h.next := rfl

theorem Heap.read_alloc_self (h : Heap) (o : FlatObj) :
    (h.alloc o).1.read h.next = some o := by
  simp [Heap.alloc, Heap.read, lookupKey]

theorem Heap.read_alloc_ne (h : Heap) (o : FlatObj) (a : Nat) (hne : a ≠ h.next) :
    (h.alloc o).1.read a = h.read a := by
  show lookupKey a ((h.next, o) :: h.objs) = lookupKey a h.objs
  simp only [lookupKey]
  rw [if_neg (fun hh => hne hh.symm)]

@[simp]
theorem Heap.alloc_next (h : Heap) (o : FlatObj) :
    (h.alloc o).1.next = h.next + 1 := rfl

@[simp]
theorem Heap.alloc_snd (h : Heap) (o : FlatObj) :
    (h.alloc o).2 = h.next := rfl

/-- Heap evolution that leaves every address below n readable unchanged. -/
def PreservesBelow (n : Nat) (h h1 : Heap) : Prop :=
  ∀ a, a < n → h1.read a = h.read a

theorem PreservesBelow.refl (n : Nat) (h : Heap) : PreservesBelow n h h :=
  fun _ _ => rfl

theorem PreservesBelow.trans {n : Nat} {h h1 h2 : Heap}
    (p1 : PreservesBelow n h h1) (p2 : PreservesBelow n h1 h2) :
    PreservesBelow n h h2 :=
  fun a ha => (p2 a ha).trans (p1 a ha)

theorem alloc_preservesBelow (h : Heap) (o : FlatObj) (n : Nat) (hn : n ≤ h.next) :
    PreservesBelow n h (h.alloc o).1 := by
  intro a ha
  exact h.read_alloc_ne o a (Nat.ne_of_lt (Nat.lt_of_lt_of_le ha hn))

theorem writeObj_preservesBelow (h : Heap) (a : Nat) (o : FlatObj) (n : Nat)
    (hn : n ≤ a) : PreservesBelow n h (h.writeObj a o) := by
  intro a1 ha1
  exact h.read_writeObj_ne a a1 o (Nat.ne_of_lt (Nat.lt_of_lt_of_le ha1 hn))

theorem derefVal_preserved {n : Nat} {h h1 : Heap} (hp : PreservesBelow n h h1)
    (v : Value) (hv : ∀ a ∈ valAddrs v, a < n) : derefVal h1 v = derefVal h v := by
  cases v with
  | prim p => rfl
  | ref a =>
    simp only [derefVal]
    rw [hp a (hv a (by simp [valAddrs]))]

theorem readout_preserved {n : Nat} {h h1 : Heap} (hp : PreservesBelow n h h1)
    (b : Bag) (hb : ∀ a ∈ bagAddrs b, a < n) : readout h1 b = readout h b := by
  induction b with
  | nil => rfl
  | cons e rest ih =>
    simp only [readout_cons]
    rw [derefVal_preserved hp e.2 (fun a ha => hb a (by simp [ha])),
      ih (fun a ha => hb a (by simp [ha]))]

theorem derefVal_writeObj_notmem (h : Heap) (a : Nat) (o : FlatObj) (v : Value)
    (hv : a ∉ valAddrs v) : derefVal (h.writeObj a o) v = derefVal h v := by
  cases v with
  | prim p => rfl
  | ref a1 =>
    simp only [derefVal]
    rw [h.read_writeObj_ne a a1 o (by simpa [valAddrs, eq_comm] using hv)]

theorem readout_writeObj_notmem (h : Heap) (a : Nat) (o : FlatObj) (b : Bag)
    (hb : a ∉ bagAddrs b) : readout (h.writeObj a o) b = readout h b := by
  induction b with
  | nil => rfl
  | cons e rest ih =>
    simp only [readout_cons]
    rw [derefVal_writeObj_notmem h a o e.2 (fun hm => hb (by simp [hm])),
      ih (fun hm => hb (by simp [hm]))]

theorem readout_setKey (h : Heap) (b : Bag) (k : String) (v : Value) :
    readout h (setKey b k v) = setKey (readout h b) k (derefVal h v) := by
  induction b with
  | nil => rfl
  | cons e rest ih =>
    obtain ⟨k1, v1⟩ := e
    by_cases hk : k1 = k
    · simp only [setKey, if_pos hk, readout_cons]
      try rfl
    · simp only [setKey, if_neg hk, readout_cons, ih]
      try rfl

theorem lookupKey_readout (h : Heap) (b : Bag) (k : String) :
    lookupKey k (readout h b) = (lookupKey k b).map (derefVal h) := by
  induction b with
  | nil => rfl
  | cons e rest ih =>
    obtain ⟨k1, v1⟩ := e
    by_cases hk : k1 = k
    · simp only [readout_cons, lookupKey, if_pos hk, Option.map_some']
      try rfl
    · simp only [readout_cons, lookupKey, if_neg hk, ih]
      try exact ih

theorem setKey_addrs (b : Bag) (k : String) (v : Value) :
    ∀ x ∈ bagAddrs (setKey b k v), x ∈ bagAddrs b ∨ x ∈ valAddrs v := by
  induction b with
  | nil =>
    intro x hx
    right
    simpa [setKey] using hx
  | cons e rest ih =>
    obtain ⟨k1, v1⟩ := e
    intro x hx
    by_cases hk : k1 = k
    · simp only [setKey, if_pos hk, bagAddrs_cons, List.mem_append] at hx
      rcases hx with hx | hx
      · right
        exact hx
      · left
        simp [hx]
    · simp only [setKey, if_neg hk, bagAddrs_cons, List.mem_append] at hx
      rcases hx with hx | hx
      · left
        simp [hx]
      · rcases ih x hx with h1 | h1
        · left
          simp [h1]
        · right
          exact h1

theorem setKey_nodup (b : Bag) (k : String) (v : Value)
    (hb : (bagAddrs b).Nodup) (hv : ∀ x ∈ valAddrs v, x ∉ bagAddrs b) :
    (bagAddrs (setKey b k v)).Nodup := by
  induction b with
  | nil =>
    cases v <;> simp [setKey, valAddrs]
  | cons e rest ih =>
    obtain ⟨k1, v1⟩ := e
    simp only [bagAddrs_cons, List.nodup_append] at hb
    obtain ⟨hn1, hn2, hdisj⟩ := hb
    by_cases hk : k1 = k
    · simp only [setKey, if_pos hk, bagAddrs_cons, List.nodup_append]
      refine ⟨?_, hn2, ?_⟩
      · cases v <;> simp [valAddrs]
      · intro x hxv hxr
        exact hv x hxv (by simp [hxr])
    · simp only [setKey, if_neg hk, bagAddrs_cons, List.nodup_append]
      refine ⟨hn1, ih hn2 (fun x hxv hxr => hv x hxv (by simp [hxr])), ?_⟩
      intro x hxv1 hxs
      rcases setKey_addrs rest k v x hxs with h1 | h1
      · exact hdisj hxv1 h1
      · exact hv x h1 (by simp [hxv1])

theorem lookupKey_ref_mem (b : Bag) (k : String) (a : Nat)
    (hl : lookupKey k b = some (.ref a)) : a ∈ bagAddrs b := by
  induction b with
  | nil => simp [lookupKey] at hl
  | cons e rest ih =>
    obtain ⟨k1, v1⟩ := e
    by_cases hk : k1 = k
    · have hv : v1 = Value.ref a := by simpa [lookupKey, hk] using hl
      subst hv
      simp [valAddrs]
    · have hl2 : lookupKey k rest = some (Value.ref a) := by
        simpa [lookupKey, hk] using hl
      simp [ih hl2]

theorem readout_writeObj_at (h : Heap) (b : Bag) (k : String) (a : Nat) (o : FlatObj)
    (hl : lookupKey k b = some (.ref a)) (hb : (bagAddrs b).Nodup) :
    readout (h.writeObj a o) b = setKey (readout h b) k (.inr o) := by
  induction b with
  | nil => simp [lookupKey] at hl
  | cons e rest ih =>
    obtain ⟨k1, v1⟩ := e
    simp only [bagAddrs_cons, List.nodup_append] at hb
    obtain ⟨hn1, hn2, hdisj⟩ := hb
    by_cases hk : k1 = k
    · subst hk
      have hv : v1 = Value.ref a := by simpa [lookupKey] using hl
      subst hv
      have hd : derefVal (h.writeObj a o) (Value.ref a) = Sum.inr o := by
        simp [derefVal, h.read_writeObj_self a o]
      have hr : readout (h.writeObj a o) rest = readout h rest :=
        readout_writeObj_notmem h a o rest (fun hm => hdisj (by simp [valAddrs]) hm)
      simp only [readout_cons, setKey, if_pos rfl, hd, hr]
      try rfl
    · have hl2 : lookupKey k rest = some (Value.ref a) := by
        simpa [lookupKey, hk] using hl
      have ha : a ∈ bagAddrs rest := lookupKey_ref_mem rest k a hl2
      have hdv : derefVal (h.writeObj a o) v1 = derefVal h v1 :=
        derefVal_writeObj_notmem h a o v1 (fun hm => hdisj hm ha)
      simp only [readout_cons, setKey, if_neg hk, hdv, ih hl2 hn2]
      try rfl

/-! ### Lemmas about deep copies -/

theorem copyBag_next_mono (b : Bag) : ∀ h : Heap, h.next ≤ (copyBag h b).1.next := by
  induction b with
  | nil =>
    intro h
    exact Nat.le_refl _
  | cons e rest ih =>
    obtain ⟨k, v⟩ := e
    intro h
    cases v with
    | prim p =>
      simpa [copyBag] using ih h
    | ref a =>
      have h1 := ih (h.alloc ((h.read a).getD [])).1
      simp only [Heap.alloc_next] at h1
      simp only [copyBag]
      omega

theorem copyBag_preservesBelow (b : Bag) : ∀ (h : Heap) (n : Nat), n ≤ h.next →
    PreservesBelow n h (copyBag h b).1 := by
  induction b with
  | nil =>
    intro h n _
    exact PreservesBelow.refl n h
  | cons e rest ih =>
    obtain ⟨k, v⟩ := e
    intro h n hn
    cases v with
    | prim p =>
      simpa [copyBag] using ih h n hn
    | ref a =>
      have p1 : PreservesBelow n h (h.alloc ((h.read a).getD [])).1 :=
        alloc_preservesBelow h _ n hn
      have p2 : PreservesBelow n (h.alloc ((h.read a).getD [])).1
          (copyBag (h.alloc ((h.read a).getD [])).1 rest).1 :=
        ih _ n (by simp only [Heap.alloc_next]; omega)
      simpa [copyBag] using p1.trans p2

theorem copyBag_addrs_ge (b : Bag) : ∀ (h : Heap) (x : Nat),
    x ∈ bagAddrs (copyBag h b).2 → h.next ≤ x := by
  induction b with
  | nil =>
    intro h x hx
    simp [copyBag] at hx
  | cons e rest ih =>
    obtain ⟨k, v⟩ := e
    intro h x hx
    cases v with
    | prim p =>
      simp only [copyBag, bagAddrs_cons, valAddrs, List.nil_append] at hx
      exact ih h x hx
    | ref a =>
      simp only [copyBag, bagAddrs_cons, valAddrs, List.mem_append, List.mem_singleton] at hx
      rcases hx with hx | hx
      · subst hx
        exact Nat.le_refl _
      · have h1 := ih (h.alloc ((h.read a).getD [])).1 x hx
        simp only [Heap.alloc_next] at h1
        omega

theorem copyBag_addrs_lt (b : Bag) : ∀ (h : Heap) (x : Nat),
    x ∈ bagAddrs (copyBag h b).2 → x < (copyBag h b).1.next := by
  induction b with
  | nil =>
    intro h x hx
    simp [copyBag] at hx
  | cons e rest ih =>
    obtain ⟨k, v⟩ := e
    intro h x hx
    cases v with
    | prim p =>
      simp only [copyBag, bagAddrs_cons, valAddrs, List.nil_append] at hx
      simpa [copyBag] using ih h x hx
    | ref a =>
      simp only [copyBag, bagAddrs_cons, valAddrs, List.mem_append, List.mem_singleton,
        Heap.alloc_snd] at hx
      simp only [copyBag]
      rcases hx with hx | hx
      · subst hx
        have h1 := copyBag_next_mono rest (h.alloc ((h.read a).getD [])).1
        simp only [Heap.alloc_next] at h1
        omega
      · exact ih _ x hx

theorem copyBag_nodup (b : Bag) : ∀ h : Heap, (bagAddrs (copyBag h b).2).Nodup := by
  induction b with
  | nil =>
    intro h
    simp [copyBag]
  | cons e rest ih =>
    obtain ⟨k, v⟩ := e
    intro h
    cases v with
    | prim p =>
      simpa [copyBag, valAddrs] using ih h
    | ref a =>
      simp only [copyBag, bagAddrs_cons, valAddrs, List.singleton_append, List.nodup_cons]
      refine ⟨fun hm => ?_, ih _⟩
      have h1 := copyBag_addrs_ge rest (h.alloc ((h.read a).getD [])).1 h.next hm
      simp only [Heap.alloc_next] at h1
      omega

theorem copyBag_readout (b : Bag) : ∀ h : Heap, (∀ x ∈ bagAddrs b, x < h.next) →
    readout (copyBag h b).1 (copyBag h b).2 = readout h b := by
  induction b with
  | nil =>
    intro h _
    rfl
  | cons e rest ih =>
    obtain ⟨k, v⟩ := e
    intro h hb
    cases v with
    | prim p =>
      simp only [copyBag, readout_cons, derefVal]
      rw [ih h (fun x hx => hb x (by simp [hx]))]
    | ref a =>
      have hrest : ∀ x ∈ bagAddrs rest, x < h.next := fun x hx => hb x (by simp [hx])
      have hread : ((copyBag (h.alloc ((h.read a).getD [])).1 rest).1).read h.next
          = some ((h.read a).getD []) := by
        have hp : PreservesBelow (h.next + 1) (h.alloc ((h.read a).getD [])).1
            (copyBag (h.alloc ((h.read a).getD [])).1 rest).1 :=
          copyBag_preservesBelow rest _ _ (by simp)
        rw [hp h.next (Nat.lt_succ_self _)]
        exact h.read_alloc_self _
      have htail : readout (copyBag (h.alloc ((h.read a).getD [])).1 rest).1
          (copyBag (h.alloc ((h.read a).getD [])).1 rest).2
          = readout h rest := by
        rw [ih _ (fun x hx => by
          have hxl := hrest x hx
          simp only [Heap.alloc_next]
          omega)]
        exact readout_preserved (alloc_preservesBelow h _ h.next (Nat.le_refl _)) rest hrest
      simp only [copyBag, readout_cons, derefVal, Heap.alloc_snd, hread, htail,
        Option.getD_some]

/-! ### Lemmas about deep merging -/

theorem lookupRef_eq_some (b : Bag) (k : String) (a : Nat) :
    lookupRef b k = some a ↔ lookupKey k b = some (Value.ref a) := by
  cases hl : lookupKey k b with
  | none => simp [lookupRef, hl]
  | some v =>
    cases v with
    | prim p => simp [lookupRef, hl]
    | ref a1 => simp [lookupRef, hl]

theorem lookupObj_readout (h : Heap) (b : Bag) (k : String) :
    lookupObj (readout h b) k = (lookupRef b k).map (fun a => (h.read a).getD []) := by
  cases hl : lookupKey k b with
  | none => simp [lookupObj, lookupKey_readout, lookupRef, hl]
  | some v =>
    cases v with
    | prim p => simp [lookupObj, lookupKey_readout, lookupRef, hl, derefVal]
    | ref a => simp [lookupObj, lookupKey_readout, lookupRef, hl, derefVal]

theorem mergeInto_next_mono (p : PBag) : ∀ (h : Heap) (b : Bag),
    h.next ≤ (mergeInto h b p).1.next := by
  induction p with
  | nil =>
    intro h b
    exact Nat.le_refl _
  | cons e rest ih =>
    obtain ⟨k, pv⟩ := e
    intro h b
    cases pv with
    | scalar q =>
      simpa [mergeInto] using ih h (setKey b k (.prim q))
    | obj o =>
      cases hl : lookupRef b k with
      | some a =>
        simp only [mergeInto, hl]
        exact ih (h.writeObj a (mergeFlat ((h.read a).getD []) o)) b
      | none =>
        simp only [mergeInto, hl]
        have h1 := ih (h.alloc o).1 (setKey b k (.ref (h.alloc o).2))
        simp only [Heap.alloc_next] at h1
        omega

theorem mergeInto_preservesBelow (p : PBag) : ∀ (h : Heap) (b : Bag) (n : Nat),
    n ≤ h.next → (∀ x ∈ bagAddrs b, n ≤ x) →
    PreservesBelow n h (mergeInto h b p).1 := by
  induction p with
  | nil =>
    intro h b n _ _
    exact PreservesBelow.refl n h
  | cons e rest ih =>
    obtain ⟨k, pv⟩ := e
    intro h b n hn hb
    cases pv with
    | scalar q =>
      have hb1 : ∀ x ∈ bagAddrs (setKey b k (.prim q)), n ≤ x := by
        intro x hx
        rcases setKey_addrs b k (.prim q) x hx with h1 | h1
        · exact hb x h1
        · simp [valAddrs] at h1
      simpa [mergeInto] using ih h (setKey b k (.prim q)) n hn hb1
    | obj o =>
      cases hl : lookupRef b k with
      | some a =>
        have ha : a ∈ bagAddrs b :=
          lookupKey_ref_mem b k a ((lookupRef_eq_some b k a).mp hl)
        have p1 : PreservesBelow n h (h.writeObj a (mergeFlat ((h.read a).getD []) o)) :=
          writeObj_preservesBelow h a _ n (hb a ha)
        have p2 := ih (h.writeObj a (mergeFlat ((h.read a).getD []) o)) b n
          (by simpa using hn) hb
        simp only [mergeInto, hl]
        exact p1.trans p2
      | none =>
        have p1 : PreservesBelow n h (h.alloc o).1 := alloc_preservesBelow h o n hn
        have hb1 : ∀ x ∈ bagAddrs (setKey b k (.ref (h.alloc o).2)), n ≤ x := by
          intro x hx
          rcases setKey_addrs b k (.ref (h.alloc o).2) x hx with h1 | h1
          · exact hb x h1
          · simp only [valAddrs, List.mem_singleton, Heap.alloc_snd] at h1
            omega
        have p2 := ih (h.alloc o).1 (setKey b k (.ref (h.alloc o).2)) n
          (by simp only [Heap.alloc_next]; omega) hb1
        simp only [mergeInto, hl]
        exact p1.trans p2

theorem mergeInto_addrs_ge (p : PBag) : ∀ (h : Heap) (b : Bag) (n : Nat),
    n ≤ h.next → (∀ x ∈ bagAddrs b, n ≤ x) →
    ∀ x ∈ bagAddrs (mergeInto h b p).2, n ≤ x := by
  induction p with
  | nil =>
    intro h b n _ hb
    exact hb
  | cons e rest ih =>
    obtain ⟨k, pv⟩ := e
    intro h b n hn hb
    cases pv with
    | scalar q =>
      have hb1 : ∀ x ∈ bagAddrs (setKey b k (.prim q)), n ≤ x := by
        intro x hx
        rcases setKey_addrs b k (.prim q) x hx with h1 | h1
        · exact hb x h1
        · simp [valAddrs] at h1
      simpa [mergeInto] using ih h (setKey b k (.prim q)) n hn hb1
    | obj o =>
      cases hl : lookupRef b k with
      | some a =>
        simp only [mergeInto, hl]
        exact ih (h.writeObj a (mergeFlat ((h.read a).getD []) o)) b n
          (by simpa using hn) hb
      | none =>
        have hb1 : ∀ x ∈ bagAddrs (setKey b k (.ref (h.alloc o).2)), n ≤ x := by
          intro x hx
          rcases setKey_addrs b k (.ref (h.alloc o).2) x hx with h1 | h1
          · exact hb x h1
          · simp only [valAddrs, List.mem_singleton, Heap.alloc_snd] at h1
            omega
        simp only [mergeInto, hl]
        exact ih (h.alloc o).1 (setKey b k (.ref (h.alloc o).2)) n
          (by simp only [Heap.alloc_next]; omega) hb1

theorem mergeInto_correct (p : PBag) : ∀ (h : Heap) (b : Bag),
    (∀ x ∈ bagAddrs b, x < h.next) → (bagAddrs b).Nodup →
    readout (mergeInto h b p).1 (mergeInto h b p).2 = pureMerge (readout h b) p := by
  induction p with
  | nil =>
    intro h b _ _
    rfl
  | cons e rest ih =>
    obtain ⟨k, pv⟩ := e
    intro h b hb hnd
    cases pv with
    | scalar q =>
      have hb1 : ∀ x ∈ bagAddrs (setKey b k (.prim q)), x < h.next := by
        intro x hx
        rcases setKey_addrs b k (.prim q) x hx with h1 | h1
        · exact hb x h1
        · simp [valAddrs] at h1
      have hnd1 : (bagAddrs (setKey b k (.prim q))).Nodup :=
        setKey_nodup b k (.prim q) hnd (by simp [valAddrs])
      have hstep := ih h (setKey b k (.prim q)) hb1 hnd1
      rw [readout_setKey] at hstep
      simpa [mergeInto, pureMerge, derefVal] using hstep
    | obj o =>
      cases hl : lookupRef b k with
      | some a =>
        have hlk : lookupKey k b = some (Value.ref a) := (lookupRef_eq_some b k a).mp hl
        have hstep := ih (h.writeObj a (mergeFlat ((h.read a).getD []) o)) b
          (by simpa using hb) hnd
        have hro : readout (h.writeObj a (mergeFlat ((h.read a).getD []) o)) b
            = setKey (readout h b) k (.inr (mergeFlat ((h.read a).getD []) o)) :=
          readout_writeObj_at h b k a _ hlk hnd
        rw [hro] at hstep
        simp only [mergeInto, hl, pureMerge, lookupObj_readout, Option.map_some']
        exact hstep
      | none =>
        have hfresh : ∀ x ∈ valAddrs (Value.ref (h.alloc o).2), x ∉ bagAddrs b := by
          intro x hx hxb
          simp only [valAddrs, List.mem_singleton, Heap.alloc_snd] at hx
          subst hx
          exact absurd (hb _ hxb) (Nat.lt_irrefl _)
        have hb1 : ∀ x ∈ bagAddrs (setKey b k (.ref (h.alloc o).2)), x < (h.alloc o).1.next := by
          intro x hx
          rcases setKey_addrs b k (.ref (h.alloc o).2) x hx with h1 | h1
          · have := hb x h1
            simp only [Heap.alloc_next]
            omega
          · simp only [valAddrs, List.mem_singleton, Heap.alloc_snd] at h1
            simp only [Heap.alloc_next]
            omega
        have hnd1 : (bagAddrs (setKey b k (.ref (h.alloc o).2))).Nodup :=
          setKey_nodup b k (.ref (h.alloc o).2) hnd hfresh
        have hstep := ih (h.alloc o).1 (setKey b k (.ref (h.alloc o).2)) hb1 hnd1
        have hro : readout (h.alloc o).1 (setKey b k (.ref (h.alloc o).2))
            = setKey (readout h b) k (.inr o) := by
          rw [readout_setKey]
          have hd : derefVal (h.alloc o).1 (Value.ref (h.alloc o).2) = Sum.inr o := by
            simp [derefVal, Heap.alloc_snd, h.read_alloc_self o]
          rw [hd]
          rw [readout_preserved (alloc_preservesBelow h o h.next (Nat.le_refl _)) b hb]
        rw [hro] at hstep
        simp only [mergeInto, hl, pureMerge, lookupObj_readout, Option.map_none']
        exact hstep

/-! ### Lemmas about mergeMetadata -/

theorem mergeMetadata_preservesBelow (h : Heap) (store : MetaStore) (clsId : Nat)
    (p : PBag) : PreservesBelow h.next h (mergeMetadata h store clsId p).1 := by
  have p1 : PreservesBelow h.next h (copyBag h ((lookupKey clsId store).getD [])).1 :=
    copyBag_preservesBelow _ h h.next (Nat.le_refl _)
  have p2 : PreservesBelow h.next (copyBag h ((lookupKey clsId store).getD [])).1
      (mergeInto (copyBag h ((lookupKey clsId store).getD [])).1
        (copyBag h ((lookupKey clsId store).getD [])).2 p).1 :=
    mergeInto_preservesBelow p _ _ h.next (copyBag_next_mono _ h) (copyBag_addrs_ge _ h)
  simpa [mergeMetadata] using p1.trans p2

theorem mergeMetadata_frame (h : Heap) (store : MetaStore) (clsId : Nat) (p : PBag)
    (b0 : Bag) (hb0 : ∀ x ∈ bagAddrs b0, x < h.next) :
    readout (mergeMetadata h store clsId p).1 b0 = readout h b0 :=
  readout_preserved (mergeMetadata_preservesBelow h store clsId p) b0 hb0

theorem mergeMetadata_correct (h : Heap) (store : MetaStore) (clsId : Nat) (p : PBag)
    (hcur : ∀ x ∈ bagAddrs ((lookupKey clsId store).getD []), x < h.next) :
    readout (mergeMetadata h store clsId p).1 (mergeMetadata h store clsId p).2
      = pureMerge (readout h ((lookupKey clsId store).getD [])) p := by
  have hc := mergeInto_correct p (copyBag h ((lookupKey clsId store).getD [])).1
    (copyBag h ((lookupKey clsId store).getD [])).2
    (copyBag_addrs_lt _ h) (copyBag_nodup _ h)
  rw [copyBag_readout _ h hcur] at hc
  simpa [mergeMetadata] using hc

theorem mergeMetadata_addrs_ge (h : Heap) (store : MetaStore) (clsId : Nat) (p : PBag) :
    ∀ x ∈ bagAddrs (mergeMetadata h store clsId p).2, h.next ≤ x := by
  intro x hx
  exact mergeInto_addrs_ge p (copyBag h ((lookupKey clsId store).getD [])).1
    (copyBag h ((lookupKey clsId store).getD [])).2 h.next
    (copyBag_next_mono _ h) (copyBag_addrs_ge _ h) x (by simpa [mergeMetadata] using hx)

/-! ### Lemmas about string containment -/

theorem listHasSub_append_left (p l2 : List Char) (l1 : List Char)
    (h : listHasSub p l2 = true) : listHasSub p (l1 ++ l2) = true := by
  induction l1 with
  | nil => simpa using h
  | cons c t ih =>
    simp only [List.cons_append, listHasSub, Bool.or_eq_true]
    exact Or.inr ih

theorem containsStr_append_left (a b sub : String)
    (h : containsStr b sub = true) : containsStr (a ++ b) sub = true := by
  unfold containsStr
  rw [String.data_append]
  exact listHasSub_append_left sub.data b.data a.data h

/-! ### Lemmas about the property compiler -/

theorem resolveType_error_eq (key : String) (hint : Option TypeHint) (o : PropOptions)
    (e : CompileError) (h : resolveType key hint o = .error e) :
    e = .noMetadata key := by
  unfold resolveType at h
  rcases ht : o.type with _ | t
  · rw [ht] at h
    cases hint with
    | none =>
      simp only [Except.error.injEq] at h
      exact h.symm
    | some hn => simp at h
  · rw [ht] at h
    simp at h

theorem checkEnum_error_eq (u : Bool) (name key : String) (eo : Option EnumDef)
    (e : CompileError) (h : checkEnum u name key eo = .error e) :
    e = .enumNotString name key := by
  cases eo with
  | none => simp [checkEnum] at h
  | some ed =>
    cases u with
    | false => simp [checkEnum] at h
    | true =>
      cases hb : ed.members.all (fun m => (memberStr m.2).isSome) with
      | true => simp [checkEnum, hb] at h
      | false =>
        simp [checkEnum, hb] at h
        exact h.symm

theorem compileProp_ok_inv (u : Bool) (name key : String) (hint : Option TypeHint)
    (o : PropOptions) (fp : FieldPlan)
    (hok : compileProp u name key hint o = .ok fp) :
    resolveType key hint o = .ok fp.type ∧
    checkEnum u name key o.enum = .ok fp.enumValues ∧
    fp.name = key ∧ fp.index = normIndex o ∧ fp.unique = o.unique ∧
    fp.required = o.required.getD false ∧ fp.hasGetSet = o.get.isSome := by
  by_cases hgs : getSetViolated o
  · simp [compileProp, hgs] at hok
  · by_cases hvp : (vpopAny o && !vpopAll o) = true
    · simp [compileProp, hgs, hvp] at hok
    · cases hres : resolveType key hint o with
      | error e => simp [compileProp, hgs, hvp, hres] at hok
      | ok rt =>
        cases henm : checkEnum u name key o.enum with
        | error e => simp [compileProp, hgs, hvp, hres, henm] at hok
        | ok ev =>
          by_cases hso : stringOnlyViolated o rt
          · simp [compileProp, hgs, hvp, hres, henm, hso] at hok
          · by_cases hno : numberOnlyViolated o rt
            · simp [compileProp, hgs, hvp, hres, henm, hso, hno] at hok
            · simp only [compileProp, if_neg hgs, if_neg hvp, hres, henm,
                if_neg hso, if_neg hno, Except.ok.injEq] at hok
              subst hok
              exact ⟨rfl, rfl, rfl, rfl, rfl, rfl, rfl⟩

theorem compileProp_not_vpopErr (u : Bool) (name key : String) (hint : Option TypeHint)
    (o : PropOptions) (hv : (vpopAny o && !vpopAll o) = false) :
    isVPOPErr (compileProp u name key hint o) = false := by
  by_cases hgs : getSetViolated o
  · simp [compileProp, hgs, isVPOPErr]
  · cases hres : resolveType key hint o with
    | error e =>
      rw [resolveType_error_eq key hint o e hres] at hres
      simp [compileProp, hgs, hv, hres, isVPOPErr]
    | ok rt =>
      cases henm : checkEnum u name key o.enum with
      | error e =>
        rw [checkEnum_error_eq u name key o.enum e henm] at henm
        simp [compileProp, hgs, hv, hres, henm, isVPOPErr]
      | ok ev =>
        by_cases hso : stringOnlyViolated o rt
        · simp [compileProp, hgs, hv, hres, henm, hso, isVPOPErr]
        · by_cases hno : numberOnlyViolated o rt
          · simp [compileProp, hgs, hv, hres, henm, hso, hno, isVPOPErr]
          · simp [compileProp, hgs, hv, hres, henm, hso, hno, isVPOPErr]

theorem compileProp_not_getSetErr (u : Bool) (name key : String) (hint : Option TypeHint)
    (o : PropOptions) (hgs : getSetViolated o = false) :
    isGetSetErr (compileProp u name key hint o) = false := by
  by_cases hvp : (vpopAny o && !vpopAll o) = true
  · simp [compileProp, hgs, hvp, isGetSetErr]
  · cases hres : resolveType key hint o with
    | error e =>
      rw [resolveType_error_eq key hint o e hres] at hres
      simp [compileProp, hgs, hvp, hres, isGetSetErr]
    | ok rt =>
      cases henm : checkEnum u name key o.enum with
      | error e =>
        rw [checkEnum_error_eq u name key o.enum e henm] at henm
        simp [compileProp, hgs, hvp, hres, henm, isGetSetErr]
      | ok ev =>
        by_cases hso : stringOnlyViolated o rt
        · simp [compileProp, hgs, hvp, hres, henm, hso, isGetSetErr]
        · by_cases hno : numberOnlyViolated o rt
          · simp [compileProp, hgs, hvp, hres, henm, hso, hno, isGetSetErr]
          · simp [compileProp, hgs, hvp, hres, henm, hso, hno, isGetSetErr]

theorem missingVirtual_cases (o : PropOptions) (kk : String)
    (hm : kk ∈ missingVirtual o) :
    kk = "ref" ∨ kk = "localField" ∨ kk = "foreignField" := by
  simp only [missingVirtual, vpopSlots, List.mem_map, List.mem_filter] at hm
  obtain ⟨s, ⟨hmem, _⟩, hkk⟩ := hm
  simp only [List.mem_cons, List.not_mem_nil, or_false] at hmem
  rcases hmem with h1 | h1 | h1 <;> subst h1 <;> simp at hkk <;> simp [← hkk]

theorem vpop_message_contains (name key kk : String)
    (hk : kk = "ref" ∨ kk = "localField" ∨ kk = "foreignField") :
    containsStr (CompileError.message (.notAllVPOP name key)) kk = true := by
  have hj : containsStr (String.intercalate ", " allVirtualoptions) kk = true := by
    rcases hk with h1 | h1 | h1 <;> subst h1 <;> decide
  exact containsStr_append_left _ _ kk hj

theorem compileProp_not_enumErr (u : Bool) (name key : String) (hint : Option TypeHint)
    (o : PropOptions) (ev : Option (List String))
    (hce : checkEnum u name key o.enum = .ok ev) :
    isEnumErr (compileProp u name key hint o) = false := by
  by_cases hgs : getSetViolated o
  · simp [compileProp, hgs, isEnumErr]
  · by_cases hvp : (vpopAny o && !vpopAll o) = true
    · simp [compileProp, hgs, hvp, isEnumErr]
    · cases hres : resolveType key hint o with
      | error e =>
        rw [resolveType_error_eq key hint o e hres] at hres
        simp [compileProp, hgs, hvp, hres, isEnumErr]
      | ok rt =>
        by_cases hso : stringOnlyViolated o rt
        · simp [compileProp, hgs, hvp, hres, hce, hso, isEnumErr]
        · by_cases hno : numberOnlyViolated o rt
          · simp [compileProp, hgs, hvp, hres, hce, hso, hno, isEnumErr]
          · simp [compileProp, hgs, hvp, hres, hce, hso, hno, isEnumErr]

theorem lookupKey_eq_none {κ α : Type} [DecidableEq κ] (l : List (κ × α)) (k : κ)
    (h : ∀ p ∈ l, p.1 ≠ k) : lookupKey k l = none := by
  induction l with
  | nil => rfl
  | cons e rest ih =>
    obtain ⟨k1, v1⟩ := e
    simp only [lookupKey, if_neg (h (k1, v1) (by simp))]
    exact ih (fun p hp => h p (by simp [hp]))

/-! ### The claims -/

/-- C2: for every property whose option bag fills some but not all of the
virtual-populate slots (ref/refPath, localField, foreignField), and whose
get/set pair is well formed, compilation raises the NotAllVPOPElementsError
whose message names every missing key; filling the complete set, or none of
them, never raises this error. -/
theorem C2_virtual_populate (u : Bool) (name key : String) (hint : Option TypeHint)
    (o : PropOptions) (hgs : getSetViolated o = false) :
    (vpopAny o = true → vpopAll o = false →
      compileProp u name key hint o = .error (.notAllVPOP name key)
      ∧ ∀ kk ∈ missingVirtual o,
          containsStr (CompileError.message (.notAllVPOP name key)) kk = true)
    ∧ ((vpopAll o = true ∨ vpopAny o = false) →
        isVPOPErr (compileProp u name key hint o) = false) := by
  constructor
  · intro ha hna
    constructor
    · simp [compileProp, hgs, ha, hna]
    · intro kk hk
      exact vpop_message_contains name key kk (missingVirtual_cases o kk hk)
  · intro hcase
    apply compileProp_not_vpopErr
    rcases hcase with h1 | h1 <;> simp [h1]

/-- Witness for C2: an option bag with ref and localField but no
foreignField raises the virtual-populate error, whose message names
foreignField. -/
theorem C2_witness :
    (getSetViolated { ref := some "Nested", localField := some "lf" } = false
      ∧ vpopAny { ref := some "Nested", localField := some "lf" } = true
      ∧ vpopAll { ref := some "Nested", localField := some "lf" } = false
      ∧ "foreignField" ∈ missingVirtual { ref := some "Nested", localField := some "lf" })
    ∧ compileProp false "Another" "kind" (some (.hClass "Car"))
        { ref := some "Nested", localField := some "lf" }
        = .error (.notAllVPOP "Another" "kind")
    ∧ containsStr (CompileError.message (.notAllVPOP "Another" "kind")) "foreignField"
        = true :=
  ⟨by decide,
   ((C2_virtual_populate false "Another" "kind" (some (.hClass "Car"))
      { ref := some "Nested", localField := some "lf" } (by decide)).1
      (by decide) (by decide)).1,
   ((C2_virtual_populate false "Another" "kind" (some (.hClass "Car"))
      { ref := some "Nested", localField := some "lf" } (by decide)).1
      (by decide) (by decide)).2 "foreignField" (by decide)⟩

/-- C3: unique true with index not explicitly false compiles to a field
plan whose index flag is true. -/
theorem C3_unique_implies_index (u : Bool) (name key : String) (hint : Option TypeHint)
    (o : PropOptions) (fp : FieldPlan)
    (hu : o.unique = some true) (hi : o.index ≠ some false)
    (hok : compileProp u name key hint o = .ok fp) :
    fp.index = some true := by
  have hidx : fp.index = normIndex o :=
    (compileProp_ok_inv u name key hint o fp hok).2.2.2.1
  have hcond : (o.unique == some true && o.index != some false) = true := by
    rw [hu]
    rcases hoi : o.index with _ | b
    · decide
    · cases b with
      | false => exact absurd hoi hi
      | true => decide
  rw [hidx]
  simp [normIndex, hcond]

/-- Witness for C3: a string property carrying only unique true compiles
with index true. -/
theorem C3_witness :
    compileProp false "IndexedClass" "uniqueId" (some .hString) { unique := some true }
      = .ok { name := "uniqueId", type := .primitive .pstring, required := false,
              index := some true, unique := some true, enumValues := none,
              hasGetSet := false, vpop := none }
    ∧ FieldPlan.index
        { name := "uniqueId", type := .primitive .pstring, required := false,
          index := some true, unique := some true, enumValues := none,
          hasGetSet := false, vpop := none } = some true :=
  ⟨by decide,
   C3_unique_implies_index false "IndexedClass" "uniqueId" (some .hString)
     { unique := some true } _ (by decide) (by decide) (by decide)⟩

/-- C4: an option bag with exactly one of the paired keys get and set
fails compilation with an error naming both keys; with both keys present
the pairing check never fires. -/
theorem C4_get_set_pair (u : Bool) (name key : String) (hint : Option TypeHint)
    (o : PropOptions) :
    (getSetViolated o = true →
      compileProp u name key hint o = .error (.getSetPair name key)
      ∧ containsStr (CompileError.message (.getSetPair name key)) "get" = true
      ∧ containsStr (CompileError.message (.getSetPair name key)) "set" = true)
    ∧ (o.get.isSome = true → o.set.isSome = true →
        isGetSetErr (compileProp u name key hint o) = false) := by
  constructor
  · intro hgs
    refine ⟨by simp [compileProp, hgs], ?_, ?_⟩
    · exact containsStr_append_left _ _ _ (by decide)
    · exact containsStr_append_left _ _ _ (by decide)
  · intro hg hs
    exact compileProp_not_getSetErr u name key hint o (by simp [getSetViolated, hg, hs])

/-- Witness for C4: a lone set raises the pairing error naming get and set,
and supplying both compiles successfully. -/
theorem C4_witness :
    (getSetViolated { set := some 1 } = true
      ∧ compileProp false "Dummy" "hello" (some .hString) { set := some 1 }
          = .error (.getSetPair "Dummy" "hello")
      ∧ containsStr (CompileError.message (.getSetPair "Dummy" "hello")) "get" = true
      ∧ containsStr (CompileError.message (.getSetPair "Dummy" "hello")) "set" = true)
    ∧ isGetSetErr (compileProp false "Dummy" "hello" (some .hString)
        { get := some 1, set := some 2 }) = false
    ∧ compileProp false "Dummy" "hello" (some .hString) { get := some 1, set := some 2 }
        = .ok { name := "hello", type := .primitive .pstring, required := false,
                index := none, unique := none, enumValues := none,
                hasGetSet := true, vpop := none } :=
  ⟨⟨by decide,
    (C4_get_set_pair false "Dummy" "hello" (some .hString) { set := some 1 }).1 (by decide)⟩,
   (C4_get_set_pair false "Dummy" "hello" (some .hString)
     { get := some 1, set := some 2 }).2 (by decide) (by decide),
   by decide⟩

/-- C5: an explicit type override determines the stored type of the
compiled field, regardless of the element type of the inferred hint; a
declared array or map wrapper is kept around the overridden element
type. -/
theorem C5_type_override (u : Bool) (name key : String) (hint : Option TypeHint)
    (o : PropOptions) (fp : FieldPlan) (t : TypeHint)
    (ht : o.type = some t)
    (hok : compileProp u name key hint o = .ok fp) :
    fp.type = wrapLike hint (resolveCore (refTarget o) t) := by
  have hres := (compileProp_ok_inv u name key hint o fp hok).1
  unfold resolveType at hres
  rw [ht] at hres
  simp only [Except.ok.injEq] at hres
  exact hres.symm

/-- Witness for C5: a property declared string with the override type
Number compiles to a number-typed field. -/
theorem C5_witness :
    compileProp false "TestPropOptionType" "propy" (some .hString)
        { type := some .hNumber }
      = .ok { name := "propy", type := .primitive .pnumber, required := false,
              index := none, unique := none, enumValues := none,
              hasGetSet := false, vpop := none }
    ∧ FieldPlan.type
        { name := "propy", type := .primitive .pnumber, required := false,
          index := none, unique := none, enumValues := none,
          hasGetSet := false, vpop := none } = .primitive .pnumber :=
  ⟨by decide,
   (C5_type_override false "TestPropOptionType" "propy" (some .hString)
      { type := some .hNumber } _ .hNumber (by decide) (by decide)).trans (by decide)⟩

/-- C7: under strict enum mode, an enum whose members carry no string
values fails compilation with the strict-enum error, and an enum whose
members are all string backed never raises that error and compiles its
members to the list of their string values. -/
theorem C7_strict_enum (name key : String) (hint : Option TypeHint) (o : PropOptions)
    (ed : EnumDef) (rt : ResolvedType) (he : o.enum = some ed) :
    (getSetViolated o = false → (vpopAny o && !vpopAll o) = false →
      resolveType key hint o = .ok rt →
      ed.members ≠ [] → (∀ m ∈ ed.members, memberStr m.2 = none) →
      compileProp true name key hint o = .error (.enumNotString name key))
    ∧ (ed.members.all (fun m => (memberStr m.2).isSome) = true →
        isEnumErr (compileProp true name key hint o) = false
        ∧ ∀ fp, compileProp true name key hint o = .ok fp →
            fp.enumValues = some (ed.members.filterMap (fun m => memberStr m.2))) := by
  constructor
  · intro hgs hvp hres hne hnum
    have hnall : ed.members.all (fun m => (memberStr m.2).isSome) = false := by
      rcases hm : ed.members with _ | ⟨m0, mrest⟩
      · exact absurd hm hne
      · have h0 : memberStr m0.2 = none := hnum m0 (by rw [hm]; simp)
        simp [List.all_cons, h0]
    have henm : checkEnum true name key o.enum = .error (.enumNotString name key) := by
      simp [checkEnum, he, hnall]
    simp [compileProp, hgs, hvp, hres, henm]
  · intro hall
    have hce : checkEnum true name key o.enum
        = .ok (some (ed.members.filterMap (fun m => memberStr m.2))) := by
      simp [checkEnum, he, hall]
    constructor
    · exact compileProp_not_enumErr true name key hint o _ hce
    · intro fp hok
      have henm := (compileProp_ok_inv true name key hint o fp hok).2.1
      rw [hce] at henm
      simp only [Except.ok.injEq] at henm
      exact henm.symm

/-- Witness for C7: a numeric-backed enum is rejected under strict enum
mode, and the string-backed SomeThing enum compiles to its string
values. -/
theorem C7_witness :
    compileProp true "SomeClass" "somestring" (some .hString)
        { type := some .hString,
          enum := some ⟨[("Here1", .inr 0), ("Here2", .inr 1), ("Here3", .inr 2)]⟩ }
      = .error (.enumNotString "SomeClass" "somestring")
    ∧ isEnumErr (compileProp true "Enumed" "gender" (some .hString)
        { type := some .hString,
          enum := some ⟨[("Hi", .inl "Hi SomeOne"), ("Hi2", .inl "Hi SomeThing")]⟩ })
        = false
    ∧ FieldPlan.enumValues
        { name := "gender", type := .primitive .pstring, required := false,
          index := none, unique := none,
          enumValues := some ["Hi SomeOne", "Hi SomeThing"],
          hasGetSet := false, vpop := none }
        = some ["Hi SomeOne", "Hi SomeThing"] :=
  ⟨(C7_strict_enum "SomeClass" "somestring" (some .hString)
      { type := some .hString,
        enum := some ⟨[("Here1", .inr 0), ("Here2", .inr 1), ("Here3", .inr 2)]⟩ }
      ⟨[("Here1", .inr 0), ("Here2", .inr 1), ("Here3", .inr 2)]⟩
      (.primitive .pstring) rfl).1 (by decide) (by decide) (by decide)
      (by decide) (by simp [memberStr]),
   ((C7_strict_enum "Enumed" "gender" (some .hString)
      { type := some .hString,
        enum := some ⟨[("Hi", .inl "Hi SomeOne"), ("Hi2", .inl "Hi SomeThing")]⟩ }
      ⟨[("Hi", .inl "Hi SomeOne"), ("Hi2", .inl "Hi SomeThing")]⟩
      (.primitive .pstring) rfl).2 (by decide)).1,
   (((C7_strict_enum "Enumed" "gender" (some .hString)
      { type := some .hString,
        enum := some ⟨[("Hi", .inl "Hi SomeOne"), ("Hi2", .inl "Hi SomeThing")]⟩ }
      ⟨[("Hi", .inl "Hi SomeOne"), ("Hi2", .inl "Hi SomeThing")]⟩
      (.primitive .pstring) rfl).2 (by decide)).2 _ (by decide)).trans (by decide)⟩

/-- C1: compiling a class a second time, through buildSchema or through
getModelForClass, returns exactly the result and state of the first
compilation (the cached plan, with no further side effects), and a
successful buildSchema stores its plan in the cache under the class
identity. -/
theorem C1_compile_idempotent (u : Bool) (s : TState) (c : Clazz) :
    buildSchema u (buildSchema u s c).1 c = buildSchema u s c
    ∧ getModelForClass u (getModelForClass u s c).1 c = getModelForClass u s c
    ∧ (∀ plan, (buildSchema u s c).2 = .ok plan →
        lookupKey c.id ((buildSchema u s c).1).schemaCache = some plan) := by
  refine ⟨?_, ?_, ?_⟩
  · cases hl : lookupKey c.id s.schemaCache with
    | some plan => simp [buildSchema, hl]
    | none =>
      cases hc : compileClass u c with
      | ok plan => simp [buildSchema, hl, hc, lookupKey]
      | error e => simp [buildSchema, hl, hc]
  · cases hm : lookupKey c.name s.models with
    | some m => simp [getModelForClass, hm]
    | none =>
      cases hl : lookupKey c.id s.schemaCache with
      | some plan => simp [getModelForClass, buildSchema, hl, hm, lookupKey]
      | none =>
        cases hc : compileClass u c with
        | ok plan => simp [getModelForClass, buildSchema, hl, hc, hm, lookupKey]
        | error e => simp [getModelForClass, buildSchema, hl, hc, hm]
  · intro plan hok
    cases hl : lookupKey c.id s.schemaCache with
    | some p0 =>
      simp only [buildSchema, hl] at hok ⊢
      simp only [Except.ok.injEq] at hok
      rw [hok]
    | none =>
      cases hc : compileClass u c with
      | ok p0 =>
        simp only [buildSchema, hl, hc] at hok ⊢
        simp only [Except.ok.injEq] at hok
        simp [lookupKey, hok]
      | error e => simp [buildSchema, hl, hc] at hok

/-- Witness for C1: compiling an empty class twice from the empty state
returns the identical cached result, and the plan is cached under the
class identity. -/
theorem C1_witness :
    buildSchema false (buildSchema false ⟨[], []⟩ ⟨0, "TEST", []⟩).1 ⟨0, "TEST", []⟩
      = buildSchema false ⟨[], []⟩ ⟨0, "TEST", []⟩
    ∧ (buildSchema false ⟨[], []⟩ ⟨0, "TEST", []⟩).2 = .ok ⟨"TEST", []⟩
    ∧ lookupKey 0 ((buildSchema false ⟨[], []⟩ ⟨0, "TEST", []⟩).1).schemaCache
        = some ⟨"TEST", []⟩ :=
  ⟨(C1_compile_idempotent false ⟨[], []⟩ ⟨0, "TEST", []⟩).1,
   by decide,
   (C1_compile_idempotent false ⟨[], []⟩ ⟨0, "TEST", []⟩).2.2 ⟨"TEST", []⟩ (by decide)⟩

/-- C10: getModelWithString returns none, not an error, when no model is
registered under the name, and returns the model a successful
getModelForClass registered under the class name. -/
theorem C10_getModelWithString (u : Bool) (s : TState) (c : Clazz) (name : String)
    (m : MModel) :
    ((∀ p ∈ s.models, p.1 ≠ name) → getModelWithString s name = none)
    ∧ ((getModelForClass u s c).2 = .ok m →
        getModelWithString (getModelForClass u s c).1 c.name = some m) := by
  constructor
  · intro habs
    exact lookupKey_eq_none s.models name habs
  · intro hok
    cases hm : lookupKey c.name s.models with
    | some m0 =>
      simp only [getModelForClass, hm] at hok ⊢
      simp only [Except.ok.injEq] at hok
      simp [getModelWithString, hm, hok]
    | none =>
      cases hl : lookupKey c.id s.schemaCache with
      | some plan =>
        simp only [getModelForClass, buildSchema, hl, hm] at hok ⊢
        simp only [Except.ok.injEq] at hok
        simp [getModelWithString, lookupKey, hok]
      | none =>
        cases hc : compileClass u c with
        | ok plan =>
          simp only [getModelForClass, buildSchema, hl, hc, hm] at hok ⊢
          simp only [Except.ok.injEq] at hok
          simp [getModelWithString, lookupKey, hok]
        | error e =>
          simp [getModelForClass, buildSchema, hl, hc, hm] at hok

/-- Witness for C10: an unregistered name yields none, and after
getModelForClass the model is found under the class name. -/
theorem C10_witness :
    getModelWithString ⟨[], []⟩ "someTestyString" = none
    ∧ (getModelForClass false ⟨[], []⟩
        ⟨0, "GetModelWithStringClass", [("hi", some .hString, {})]⟩).2
        = .ok ⟨"GetModelWithStringClass",
               ⟨"GetModelWithStringClass",
                [{ name := "hi", type := .primitive .pstring, required := false,
                   index := none, unique := none, enumValues := none,
                   hasGetSet := false, vpop := none }]⟩⟩
    ∧ getModelWithString
        (getModelForClass false ⟨[], []⟩
          ⟨0, "GetModelWithStringClass", [("hi", some .hString, {})]⟩).1
        "GetModelWithStringClass"
        = some ⟨"GetModelWithStringClass",
                ⟨"GetModelWithStringClass",
                 [{ name := "hi", type := .primitive .pstring, required := false,
                    index := none, unique := none, enumValues := none,
                    hasGetSet := false, vpop := none }]⟩⟩ :=
  ⟨(C10_getModelWithString false ⟨[], []⟩ ⟨0, "X", []⟩ "someTestyString"
      ⟨"X", ⟨"X", []⟩⟩).1 (by decide),
   by decide,
   (C10_getModelWithString false ⟨[], []⟩
      ⟨0, "GetModelWithStringClass", [("hi", some .hString, {})]⟩
      "GetModelWithStringClass"
      ⟨"GetModelWithStringClass",
       ⟨"GetModelWithStringClass",
        [{ name := "hi", type := .primitive .pstring, required := false,
           index := none, unique := none, enumValues := none,
           hasGetSet := false, vpop := none }]⟩⟩).2 (by decide)⟩

/-- C8: mergeMetadata deep-merges the partial into the bag stored for the
class and returns the merged result, while the previously stored bag is
left untouched: after the call its deep content is unchanged, because the
bag is cloned before any mutation. -/
theorem C8_mergeMetadata_clones (h : Heap) (store : MetaStore) (clsId : Nat) (p : PBag)
    (hwf : ∀ x ∈ bagAddrs ((lookupKey clsId store).getD []), x < h.next) :
    readout (mergeMetadata h store clsId p).1 ((lookupKey clsId store).getD [])
      = readout h ((lookupKey clsId store).getD [])
    ∧ readout (mergeMetadata h store clsId p).1 (mergeMetadata h store clsId p).2
      = pureMerge (readout h ((lookupKey clsId store).getD [])) p :=
  ⟨mergeMetadata_frame h store clsId p _ hwf, mergeMetadata_correct h store clsId p hwf⟩

/-- Witness for C8: merging a schemaOptions object for a class whose
stored metadata is the object with property value leaves the stored
object's content unchanged and returns the deep merge. -/
theorem C8_witness :
    (∀ x ∈ bagAddrs ((lookupKey 0
        [(0, [("property", Value.prim (Prim.pstr "value"))])]).getD []),
      x < (⟨[], 0⟩ : Heap).next)
    ∧ readout (mergeMetadata ⟨[], 0⟩ [(0, [("property", Value.prim (Prim.pstr "value"))])]
          0 [("schemaOptions", PVal.obj [("_id", Prim.pbool false)])]).1
        ((lookupKey 0 [(0, [("property", Value.prim (Prim.pstr "value"))])]).getD [])
      = readout (⟨[], 0⟩ : Heap)
        ((lookupKey 0 [(0, [("property", Value.prim (Prim.pstr "value"))])]).getD [])
    ∧ readout (mergeMetadata ⟨[], 0⟩ [(0, [("property", Value.prim (Prim.pstr "value"))])]
          0 [("schemaOptions", PVal.obj [("_id", Prim.pbool false)])]).1
        (mergeMetadata ⟨[], 0⟩ [(0, [("property", Value.prim (Prim.pstr "value"))])]
          0 [("schemaOptions", PVal.obj [("_id", Prim.pbool false)])]).2
      = pureMerge
          (readout (⟨[], 0⟩ : Heap)
            ((lookupKey 0 [(0, [("property", Value.prim (Prim.pstr "value"))])]).getD []))
          [("schemaOptions", PVal.obj [("_id", Prim.pbool false)])] :=
  ⟨by decide,
   (C8_mergeMetadata_clones ⟨[], 0⟩ [(0, [("property", Value.prim (Prim.pstr "value"))])]
      0 [("schemaOptions", PVal.obj [("_id", Prim.pbool false)])] (by decide)).1,
   (C8_mergeMetadata_clones ⟨[], 0⟩ [(0, [("property", Value.prim (Prim.pstr "value"))])]
      0 [("schemaOptions", PVal.obj [("_id", Prim.pbool false)])] (by decide)).2⟩

/-- C6: the modelOptions decorator on a derived class deep-copies the base
class's option bag: applying it leaves the base class's stored bag and its
deep content unchanged, the derived class's bag is stored separately, and
afterwards overwriting any nested object reachable from the derived bag
never changes the base bag's content, and vice versa. -/
theorem C6_option_independence (h : Heap) (store : MetaStore) (baseId derivedId : Nat)
    (p : PBag) (hBD : baseId ≠ derivedId)
    (hwf : ∀ x ∈ bagAddrs ((lookupKey baseId store).getD []), x < h.next) :
    lookupKey baseId (modelOptionsDerived h store baseId derivedId p).2
      = lookupKey baseId store
    ∧ readout (modelOptionsDerived h store baseId derivedId p).1
        ((lookupKey baseId store).getD [])
      = readout h ((lookupKey baseId store).getD [])
    ∧ lookupKey derivedId (modelOptionsDerived h store baseId derivedId p).2
      = some (mergeMetadata h store baseId p).2
    ∧ (∀ a ∈ bagAddrs (mergeMetadata h store baseId p).2, ∀ o1,
        readout (Heap.writeObj (modelOptionsDerived h store baseId derivedId p).1 a o1)
          ((lookupKey baseId store).getD [])
        = readout (modelOptionsDerived h store baseId derivedId p).1
            ((lookupKey baseId store).getD []))
    ∧ (∀ a ∈ bagAddrs ((lookupKey baseId store).getD []), ∀ o1,
        readout (Heap.writeObj (modelOptionsDerived h store baseId derivedId p).1 a o1)
          (mergeMetadata h store baseId p).2
        = readout (modelOptionsDerived h store baseId derivedId p).1
            (mergeMetadata h store baseId p).2) := by
  refine ⟨?_, ?_, ?_, ?_, ?_⟩
  · have hne : ¬ (derivedId = baseId) := fun hh => hBD hh.symm
    simp [modelOptionsDerived, lookupKey, hne]
  · exact mergeMetadata_frame h store baseId p _ hwf
  · simp [modelOptionsDerived, lookupKey]
  · intro a ha o1
    apply readout_writeObj_notmem
    intro hmem
    have h1 := mergeMetadata_addrs_ge h store baseId p a ha
    have h2 := hwf a hmem
    omega
  · intro a ha o1
    apply readout_writeObj_notmem
    intro hmem
    have h1 := mergeMetadata_addrs_ge h store baseId p a hmem
    have h2 := hwf a ha
    omega

/-- Witness for C6: a base class with collection 1 and a derived class
overriding collection 2; after the decorator the base content is
unchanged, and overwriting the derived class's nested schemaOptions
object does not change the base content. -/
theorem C6_witness :
    (∀ x ∈ bagAddrs ((lookupKey 0 [(0, [("schemaOptions", Value.ref 0)])]).getD []),
      x < (⟨[(0, [("collection", Prim.pstr "1")])], 1⟩ : Heap).next)
    ∧ readout (modelOptionsDerived ⟨[(0, [("collection", Prim.pstr "1")])], 1⟩
          [(0, [("schemaOptions", Value.ref 0)])] 0 1
          [("schemaOptions", PVal.obj [("collection", Prim.pstr "2")])]).1
        ((lookupKey 0 [(0, [("schemaOptions", Value.ref 0)])]).getD [])
      = readout (⟨[(0, [("collection", Prim.pstr "1")])], 1⟩ : Heap)
        ((lookupKey 0 [(0, [("schemaOptions", Value.ref 0)])]).getD [])
    ∧ (1 ∈ bagAddrs (mergeMetadata ⟨[(0, [("collection", Prim.pstr "1")])], 1⟩
          [(0, [("schemaOptions", Value.ref 0)])] 0
          [("schemaOptions", PVal.obj [("collection", Prim.pstr "2")])]).2)
    ∧ readout (Heap.writeObj (modelOptionsDerived ⟨[(0, [("collection", Prim.pstr "1")])], 1⟩
          [(0, [("schemaOptions", Value.ref 0)])] 0 1
          [("schemaOptions", PVal.obj [("collection", Prim.pstr "2")])]).1 1
          [("collection", Prim.pstr "99")])
        ((lookupKey 0 [(0, [("schemaOptions", Value.ref 0)])]).getD [])
      = readout (modelOptionsDerived ⟨[(0, [("collection", Prim.pstr "1")])], 1⟩
          [(0, [("schemaOptions", Value.ref 0)])] 0 1
          [("schemaOptions", PVal.obj [("collection", Prim.pstr "2")])]).1
        ((lookupKey 0 [(0, [("schemaOptions", Value.ref 0)])]).getD [])
    ∧ readout (modelOptionsDerived ⟨[(0, [("collection", Prim.pstr "1")])], 1⟩
          [(0, [("schemaOptions", Value.ref 0)])] 0 1
          [("schemaOptions", PVal.obj [("collection", Prim.pstr "2")])]).1
        ((lookupKey 0 [(0, [("schemaOptions", Value.ref 0)])]).getD [])
      = [("schemaOptions", Sum.inr [("collection", Prim.pstr "1")])] :=
  ⟨by decide,
   (C6_option_independence ⟨[(0, [("collection", Prim.pstr "1")])], 1⟩
      [(0, [("schemaOptions", Value.ref 0)])] 0 1
      [("schemaOptions", PVal.obj [("collection", Prim.pstr "2")])]
      (by decide) (by decide)).2.1,
   by decide,
   (C6_option_independence ⟨[(0, [("collection", Prim.pstr "1")])], 1⟩
      [(0, [("schemaOptions", Value.ref 0)])] 0 1
      [("schemaOptions", PVal.obj [("collection", Prim.pstr "2")])]
      (by decide) (by decide)).2.2.2.1 1 (by decide) [("collection", Prim.pstr "99")],
   by decide⟩

/-- C9: assignMetadata called with an absent value is a no-op on heap and
store, mergeMetadata called with an absent partial returns a bag whose
deep content equals the stored metadata, and mergeSchemaOptions with an
absent partial returns the stored schemaOptions content. -/
theorem C9_undefined_value_noop (h : Heap) (store : MetaStore) (clsId : Nat)
    (hwf : ∀ x ∈ bagAddrs ((lookupKey clsId store).getD []), x < h.next) :
    assignMetadata h store clsId none = (h, store)
    ∧ readout (mergeMetadataOpt h store clsId none).1
        (mergeMetadataOpt h store clsId none).2
      = readout h ((lookupKey clsId store).getD [])
    ∧ mergeSchemaOptions h store clsId none
      = lookupKey "schemaOptions" (readout h ((lookupKey clsId store).getD [])) := by
  refine ⟨rfl, ?_, ?_⟩
  · have hc := mergeMetadata_correct h store clsId [] hwf
    simpa [mergeMetadataOpt, pureMerge] using hc
  · have hc := mergeMetadata_correct h store clsId [] hwf
    simp only [pureMerge] at hc
    simp [mergeSchemaOptions, mergeMetadataOpt, hc]

/-- Witness for C9: with stored metadata schemaOptions holding the object
with underscore id false, the absent-value calls leave everything
unchanged and mergeSchemaOptions returns that object. -/
theorem C9_witness :
    (∀ x ∈ bagAddrs ((lookupKey 0 [(0, [("schemaOptions", Value.ref 0)])]).getD []),
      x < (⟨[(0, [("_id", Prim.pbool false)])], 1⟩ : Heap).next)
    ∧ assignMetadata ⟨[(0, [("_id", Prim.pbool false)])], 1⟩
        [(0, [("schemaOptions", Value.ref 0)])] 0 none
      = (⟨[(0, [("_id", Prim.pbool false)])], 1⟩, [(0, [("schemaOptions", Value.ref 0)])])
    ∧ mergeSchemaOptions ⟨[(0, [("_id", Prim.pbool false)])], 1⟩
        [(0, [("schemaOptions", Value.ref 0)])] 0 none
      = lookupKey "schemaOptions"
          (readout (⟨[(0, [("_id", Prim.pbool false)])], 1⟩ : Heap)
            ((lookupKey 0 [(0, [("schemaOptions", Value.ref 0)])]).getD []))
    ∧ lookupKey "schemaOptions"
        (readout (⟨[(0, [("_id", Prim.pbool false)])], 1⟩ : Heap)
          ((lookupKey 0 [(0, [("schemaOptions", Value.ref 0)])]).getD []))
      = some (Sum.inr [("_id", Prim.pbool false)]) :=
  ⟨by decide,
   (C9_undefined_value_noop ⟨[(0, [("_id", Prim.pbool false)])], 1⟩
      [(0, [("schemaOptions", Value.ref 0)])] 0 (by decide)).1,
   (C9_undefined_value_noop ⟨[(0, [("_id", Prim.pbool false)])], 1⟩
      [(0, [("schemaOptions", Value.ref 0)])] 0 (by decide)).2.2,
   by decide⟩

end Typegoose
